import Mathlib

/-!
Verification development for the layout-constraint core of the repository:
`BoxConstraints` (src/masonry/src/box_constraints.rs), `Axis`
(src/masonry/src/axis.rs), `BiAxial` (src/masonry/src/biaxial.rs) and
`ContentFill` (src/masonry/src/widget/content_fill.rs).

The Rust code computes with `f64`.  We embed `f64` as the inductive `F64`
below: NaN (all NaN payloads collapsed into one canonical value), the two
infinities, negative zero, and finite values carried as exact rationals
(`F64.fin 0` is positive zero).  The arithmetic operations follow the IEEE-754
special-value rules used by Rust (`NaN` propagation, signed zeros, signed
infinities, `inf - inf = NaN`, `0 * inf = NaN`, division by zero, and Rust's
NaN-ignoring `f64::max`/`f64::min`); finite arithmetic is exact rational
arithmetic, i.e. rounding of in-range results is not modelled.  Accordingly,
every positive statement proved below is either parametric in the values the
products and quotients take (so it holds whatever they round to), or involves
only arithmetic that is exact in binary64 (integer-valued operands within
2^53, comparisons, `expand`, `max`/`min`); the one containment property of
`constrain_aspect_ratio` whose truth does depend on rounding (real binary64
can overflow `W * fl(H/W)` past `H` by one ulp) is settled by evaluating the
code at refuting inputs, not by a proof over this exact arithmetic.  When two
arguments of `f64::max` or
`f64::min` compare equal (for example `-0.0` and `+0.0`) Rust may return
either; the model deterministically returns the first argument, and all
statements below observe such results only through IEEE equality, for which
the choice is immaterial.  Structural equality of `F64` corresponds to
equality of bit patterns of the represented doubles (distinct model values
denote distinct bit patterns; `+0.0` and `-0.0` are distinct, NaN is the
canonical quiet-NaN pattern).

The geometry helpers `Size::new`, `Size::expand`, `Size::clamp` and the
componentwise `PartialEq` come from the external `kurbo` crate exactly as the
source uses them: `expand` rounds each component away from zero to an integer
(`self.abs().ceil().copysign(self)`), `clamp` is componentwise
`v.max(lo).min(hi)`, and `==` is componentwise IEEE `f64` equality.
-/

/-- Model of a Rust `f64` value: NaN (canonical), signed infinities, negative
zero, and finite values as exact rationals (`fin 0` is `+0.0`). -/
inductive F64 where
  | nan : F64
  | posInf : F64
  | negInf : F64
  | negZero : F64
  | fin : ℚ → F64
  deriving DecidableEq

/-- Whether this value is NaN. -/
def F64.isNaN : F64 → Bool
  | .nan => true
  | _ => false

/-- Whether this value is an infinity. -/
def F64.isInf : F64 → Bool
  | .posInf => true
  | .negInf => true
  | _ => false

/-- Whether this value is a zero (either sign). -/
def F64.isZero : F64 → Bool
  | .negZero => true
  | .fin q => decide (q = 0)
  | _ => false

/-- The IEEE sign bit (true for negative); the canonical NaN has a clear sign
bit. -/
def F64.signBit : F64 → Bool
  | .nan => false
  | .posInf => false
  | .negInf => true
  | .negZero => true
  | .fin q => decide (q < 0)

/-- The rational magnitude of a finite value (junk `0` on specials, used only
where the operands are known finite). -/
def F64.val : F64 → ℚ
  | .fin q => q
  | _ => 0

/-- A zero of the given sign. -/
def F64.mkZero (neg : Bool) : F64 :=
  if neg then F64.negZero else F64.fin 0

/-- An infinity of the given sign. -/
def F64.mkInf (neg : Bool) : F64 :=
  if neg then F64.negInf else F64.posInf

/-- IEEE `<` as computed by Rust `f64` comparison: any comparison involving
NaN is false; `-0.0 < 0.0` is false. -/
def F64.lt (a b : F64) : Bool :=
  match a, b with
  | .nan, _ => false
  | _, .nan => false
  | .negInf, .negInf => false
  | .negInf, _ => true
  | _, .negInf => false
  | .posInf, _ => false
  | _, .posInf => true
  | .negZero, .negZero => false
  | .negZero, .fin q => decide (0 < q)
  | .fin q, .negZero => decide (q < 0)
  | .fin p, .fin q => decide (p < q)

/-- IEEE `==` as computed by Rust `f64` comparison: NaN is unequal to
everything (itself included); `-0.0 == 0.0` is true. -/
def F64.ieeeEq (a b : F64) : Bool :=
  match a, b with
  | .nan, _ => false
  | _, .nan => false
  | .posInf, .posInf => true
  | .posInf, _ => false
  | _, .posInf => false
  | .negInf, .negInf => true
  | .negInf, _ => false
  | _, .negInf => false
  | .negZero, .negZero => true
  | .negZero, .fin q => decide (q = 0)
  | .fin q, .negZero => decide (q = 0)
  | .fin p, .fin q => decide (p = q)

/-- IEEE `<=`: true exactly when `<` or `==` holds (false on NaN operands). -/
def F64.le (a b : F64) : Bool :=
  F64.lt a b || F64.ieeeEq a b

/-- Rust `f64::max`: ignores a NaN argument; when the arguments compare equal
(e.g. the two zeros) Rust may return either, the model returns the first. -/
def F64.max (a b : F64) : F64 :=
  if a.isNaN then b
  else if b.isNaN then a
  else if F64.lt a b then b else a

/-- Rust `f64::min`: ignores a NaN argument; when the arguments compare equal
the model returns the first. -/
def F64.min (a b : F64) : F64 :=
  if a.isNaN then b
  else if b.isNaN then a
  else if F64.lt b a then b else a

/-- Rust `f64::abs`: `|-0.0| = 0.0`, `|-inf| = inf`, NaN stays NaN. -/
def F64.abs : F64 → F64
  | .nan => .nan
  | .posInf => .posInf
  | .negInf => .posInf
  | .negZero => .fin 0
  | .fin q => .fin |q|

/-- Rust `f64::ceil`: rounds toward positive infinity; a negative value in
`(-1, 0)` rounds to `-0.0`. -/
def F64.ceil : F64 → F64
  | .nan => .nan
  | .posInf => .posInf
  | .negInf => .negInf
  | .negZero => .negZero
  | .fin q => if ⌈q⌉ = 0 ∧ q < 0 then F64.negZero else F64.fin ((⌈q⌉ : ℤ) : ℚ)

/-- Rust `f64::copysign`: the magnitude of the first argument with the sign
bit of the second. -/
def F64.copysign (a s : F64) : F64 :=
  match a with
  | .nan => .nan
  | .posInf => if s.signBit then .negInf else .posInf
  | .negInf => if s.signBit then .negInf else .posInf
  | .negZero => if s.signBit then .negZero else .fin 0
  | .fin q =>
      if s.signBit then (if q = 0 then F64.negZero else F64.fin (-|q|))
      else (if q = 0 then F64.fin 0 else F64.fin |q|)

/-- kurbo `FloatExt::expand` on one component: `self.abs().ceil().copysign(self)`,
i.e. round away from zero to an integer. -/
def F64.expand (a : F64) : F64 :=
  F64.copysign (F64.ceil (F64.abs a)) a

/-- IEEE subtraction with exact finite arithmetic: NaN propagates,
`inf - inf = NaN`, and an exactly-zero difference of finite operands is `+0.0`
except `-0.0 - 0.0 = -0.0`. -/
def F64.sub (a b : F64) : F64 :=
  match a, b with
  | .nan, _ => .nan
  | _, .nan => .nan
  | .posInf, .posInf => .nan
  | .negInf, .negInf => .nan
  | .posInf, _ => .posInf
  | .negInf, _ => .negInf
  | _, .posInf => .negInf
  | _, .negInf => .posInf
  | x, y =>
      if x.val - y.val = 0 then
        (match x, y with
         | .negZero, .fin _ => F64.negZero
         | _, _ => F64.fin 0)
      else F64.fin (x.val - y.val)

/-- IEEE multiplication with exact finite arithmetic: NaN propagates,
`0 * inf = NaN`, zero and infinite results take the XOR of the signs. -/
def F64.mul (a b : F64) : F64 :=
  if a.isNaN || b.isNaN then F64.nan
  else if (a.isInf && b.isZero) || (a.isZero && b.isInf) then F64.nan
  else if a.isInf || b.isInf then F64.mkInf (xor a.signBit b.signBit)
  else if a.val * b.val = 0 then F64.mkZero (xor a.signBit b.signBit)
  else F64.fin (a.val * b.val)

/-- IEEE division with exact finite arithmetic: NaN propagates,
`inf/inf = NaN`, `0/0 = NaN`, `x/0 = inf` and `x/inf = 0` with XOR-ed signs. -/
def F64.div (a b : F64) : F64 :=
  if a.isNaN || b.isNaN then F64.nan
  else if a.isInf && b.isInf then F64.nan
  else if a.isZero && b.isZero then F64.nan
  else if a.isInf then F64.mkInf (xor a.signBit b.signBit)
  else if b.isInf then F64.mkZero (xor a.signBit b.signBit)
  else if b.isZero then F64.mkInf (xor a.signBit b.signBit)
  else if a.val / b.val = 0 then F64.mkZero (xor a.signBit b.signBit)
  else F64.fin (a.val / b.val)

/-- Rust `f64::recip`: `1.0 / self`. -/
def F64.recip (a : F64) : F64 :=
  F64.div (F64.fin 1) a

/-- Whether two `f64` values have the same 64-bit pattern (`x.to_bits() ==
y.to_bits()`).  In the model each value stands for one bit pattern (`+0.0`
and `-0.0` are distinct, NaN is the canonical quiet-NaN pattern), so this is
structural equality. -/
def F64.sameBits (a b : F64) : Bool :=
  decide (a = b)

/-- kurbo `Size`: a width/height pair of `f64`. -/
structure Size where
  width : F64
  height : F64
  deriving DecidableEq

/-- kurbo `Size::expand`: round both components away from zero to integers. -/
def Size.expand (s : Size) : Size :=
  ⟨s.width.expand, s.height.expand⟩

/-- kurbo `Size::clamp(self, min, max)`: componentwise
`self.c.max(min.c).min(max.c)`. -/
def Size.clamp (s mn mx : Size) : Size :=
  ⟨F64.min (F64.max s.width mn.width) mx.width,
   F64.min (F64.max s.height mn.height) mx.height⟩

/-- Rust `==` on `Size` (derived `PartialEq`): componentwise IEEE equality. -/
def Size.ieeeEq (a b : Size) : Bool :=
  F64.ieeeEq a.width b.width && F64.ieeeEq a.height b.height

/-- `BoxConstraints` (src/masonry/src/box_constraints.rs): wraps one exact
target `Size`. -/
structure BoxConstraints where
  exact : Size
  deriving DecidableEq

/-- `BoxConstraints::new`: stores the expansion of the given size. -/
def BoxConstraints.new (exact : Size) : BoxConstraints :=
  ⟨exact.expand⟩

/-- `BoxConstraints::size`: the exact target, unchanged. -/
def BoxConstraints.size (c : BoxConstraints) : Size :=
  c.exact

/-- `BoxConstraints::constrain`: expand the candidate, then clamp it between
`exact` and `exact`. -/
def BoxConstraints.constrain (c : BoxConstraints) (s : Size) : Size :=
  Size.clamp s.expand c.exact c.exact

/-- `BoxConstraints::contains`: componentwise upper-bound check
`size.width <= exact.width && size.height <= exact.height`. -/
def BoxConstraints.contains (c : BoxConstraints) (s : Size) : Bool :=
  F64.le s.width c.exact.width && F64.le s.height c.exact.height

/-- `BoxConstraints::shrink`: expand the delta, subtract it from the target
flooring each component at zero, and rebuild through the constructor. -/
def BoxConstraints.shrink (c : BoxConstraints) (diff : Size) : BoxConstraints :=
  BoxConstraints.new
    ⟨F64.max (F64.sub c.size.width diff.expand.width) (F64.fin 0),
     F64.max (F64.sub c.size.height diff.expand.height) (F64.fin 0)⟩

/-- `BoxConstraints::constrain_aspect_ratio` (the second and third arguments
are the Rust `aspect_ratio` and `width`; inside, `ar2`/`w2` are the Rust
rebindings of those names to their absolute values, taken after `ideal_size`
is computed). -/
def BoxConstraints.constrainAR (c : BoxConstraints) (ar w : F64) : Size :=
  let ideal_size : Size := ⟨w, F64.mul w ar⟩
  let ar2 := ar.abs
  let w2 := w.abs
  if c.contains ideal_size then ideal_size
  else
    let max_w_min_h := F64.fin 0
    let max_w_max_h := F64.div c.exact.height c.exact.width
    if F64.lt ar2 max_w_min_h then ⟨c.exact.width, F64.fin 0⟩
    else if F64.lt w2 (F64.fin 0) then ⟨F64.mul (F64.fin 0) ar2.recip, F64.fin 0⟩
    else if F64.lt max_w_max_h ar2 then ⟨F64.mul c.exact.height ar2.recip, c.exact.height⟩
    else ⟨c.exact.width, F64.mul c.exact.width ar2⟩

/-- The non-expanded diagnostic of `BoxConstraints::debug_check`: the clause
`!(self.exact.expand() == self.exact)` (with kurbo `Size` `==`, i.e.
componentwise IEEE equality) that triggers the "Unexpanded BoxConstraints"
debug panic. -/
def BoxConstraints.notExpandedDiag (c : BoxConstraints) : Bool :=
  !(Size.ieeeEq c.exact.expand c.exact)

/-- `Axis` (src/masonry/src/axis.rs). -/
inductive Axis where
  | Horizontal : Axis
  | Vertical : Axis
  deriving DecidableEq

/-- `Axis::cross`: the perpendicular axis. -/
def Axis.cross : Axis → Axis
  | .Horizontal => .Vertical
  | .Vertical => .Horizontal

/-- `Axis::major`: the component of a `Size` along this axis. -/
def Axis.major (a : Axis) (s : Size) : F64 :=
  match a with
  | .Horizontal => s.width
  | .Vertical => s.height

/-- `Axis::minor`: the component of a `Size` along the perpendicular axis. -/
def Axis.minor (a : Axis) (s : Size) : F64 :=
  a.cross.major s

/-- `Axis::constraints`: new constraints with the major-axis value replaced,
built through `BoxConstraints::new`. -/
def Axis.constraints (a : Axis) (bc : BoxConstraints) (major : F64) : BoxConstraints :=
  match a with
  | .Horizontal => BoxConstraints.new ⟨major, bc.size.height⟩
  | .Vertical => BoxConstraints.new ⟨bc.size.width, major⟩

/-- `BiAxial<T>` (src/masonry/src/biaxial.rs). -/
structure BiAxial (T : Type) where
  horizontal : T
  vertical : T
  deriving DecidableEq

/-- `BiAxial::value_for_axis`. -/
def BiAxial.value_for_axis {T : Type} (b : BiAxial T) (axis : Axis) : T :=
  match axis with
  | .Horizontal => b.horizontal
  | .Vertical => b.vertical

/-- `BiAxial::set_for_axis`: copy, overwrite the slot for the given axis. -/
def BiAxial.set_for_axis {T : Type} (b : BiAxial T) (axis : Axis) (value : T) : BiAxial T :=
  match axis with
  | .Horizontal => { b with horizontal := value }
  | .Vertical => { b with vertical := value }

/-- `ContentFill` (src/masonry/src/widget/content_fill.rs). -/
inductive ContentFill where
  | Min : ContentFill
  | Max : ContentFill
  | Constrain : F64 → ContentFill
  | MaxStretch : ContentFill
  deriving DecidableEq

/-- `ContentFill::shrink`: only `Constrain` is affected, floored at zero. -/
def ContentFill.shrink (self : ContentFill) (amount : F64) : ContentFill :=
  match self with
  | .Min => self
  | .Max => self
  | .MaxStretch => self
  | .Constrain original_constraint =>
      ContentFill.Constrain (F64.max (F64.sub original_constraint amount) (F64.fin 0))

/-- Rust `==` on `ContentFill` (derived `PartialEq`): same variant, and for
`Constrain` IEEE equality of the `f64` payloads. -/
def ContentFill.eq (a b : ContentFill) : Bool :=
  match a, b with
  | .Min, .Min => true
  | .Max, .Max => true
  | .MaxStretch, .MaxStretch => true
  | .Constrain x, .Constrain y => F64.ieeeEq x y
  | _, _ => false

/-- Whether the fill is the `Constrain` variant. -/
def ContentFill.isConstrain : ContentFill → Bool
  | .Constrain _ => true
  | _ => false

/-- One primitive write to a `Hasher`: `u8 n` models `state.write_u8(n)` and
`u64 x` models `state.write_u64(x.to_bits())` (the value stands for its bit
pattern, see the note on `F64.sameBits`). -/
inductive HashTok where
  | u8 : ℕ → HashTok
  | u64 : F64 → HashTok
  deriving DecidableEq

/-- The sequence of hasher writes performed by `impl Hash for ContentFill`. -/
def ContentFill.hashToks : ContentFill → List HashTok
  | .Max => [HashTok.u8 1]
  | .Min => [HashTok.u8 2]
  | .MaxStretch => [HashTok.u8 3]
  | .Constrain constraint => [HashTok.u8 4, HashTok.u64 constraint]

/-- `BiAxial<ContentFill>::both_axes_constrained`. -/
def BiAxial.both_axes_constrained (b : BiAxial ContentFill) : Bool :=
  match b.horizontal, b.vertical with
  | .Constrain _, .Constrain _ => true
  | _, _ => false

/-- `BiAxial<ContentFill>::horizontal_constrained`. -/
def BiAxial.horizontal_constrained (b : BiAxial ContentFill) : Bool :=
  match b.horizontal with
  | .Constrain _ => true
  | _ => false

/-- `BiAxial<ContentFill>::constrain_aspect_ratio` (second argument is the
Rust `aspect_ratio`). -/
def BiAxial.constrainAR (b : BiAxial ContentFill) (ar : F64) (axis : Axis) : Option F64 :=
  match b.horizontal, b.vertical, axis with
  | .Constrain h, .Constrain v, axis =>
      let constraint_ratio := F64.div h v
      if F64.lt ar constraint_ratio then
        if axis = Axis.Vertical then some h else some (F64.mul ar.recip h)
      else
        if axis = Axis.Horizontal then some h else some (F64.mul ar v)
  | .Constrain h, _, .Horizontal => some h
  | _, .Constrain v, .Vertical => some v
  | _, _, _ => none

/-- `BiAxial<ContentFill>::shrink_constraints`. -/
def BiAxial.shrink_constraints (b : BiAxial ContentFill) (shrink_amount : BiAxial F64) :
    BiAxial ContentFill :=
  ⟨b.horizontal.shrink shrink_amount.horizontal, b.vertical.shrink shrink_amount.vertical⟩

/-- A finite, non-negative `f64`: negative zero or a rational at least zero.
This is exactly the set of values `x` with `x.is_finite()` and `x >= 0.0`. -/
def F64.finiteNonneg (x : F64) : Prop :=
  x = F64.negZero ∨ ∃ q : ℚ, 0 ≤ q ∧ x = F64.fin q

/-- A valid constraint bound in the sense of the specification: positive
infinity, or a non-negative expanded (integer) finite value with a clear sign
bit. -/
def F64.boundValid (x : F64) : Prop :=
  x = F64.posInf ∨ ∃ q : ℚ, 0 ≤ q ∧ x = F64.fin q ∧ F64.expand (F64.fin q) = F64.fin q

/-- Neither component of the size is NaN. -/
def Size.noNaN (s : Size) : Prop :=
  s.width.isNaN = false ∧ s.height.isNaN = false

theorem F64.lt_irrefl (x : F64) : F64.lt x x = false := by
  cases x <;> simp [F64.lt]

theorem F64.ieeeEq_refl {x : F64} (h : x.isNaN = false) : F64.ieeeEq x x = true := by
  cases x <;> simp_all [F64.ieeeEq, F64.isNaN]

theorem F64.le_self {x : F64} (h : x.isNaN = false) : F64.le x x = true := by
  simp [F64.le, F64.ieeeEq_refl h]

theorem F64.le_posInf {x : F64} (h : x.isNaN = false) : F64.le x F64.posInf = true := by
  cases x <;> simp_all [F64.le, F64.lt, F64.ieeeEq, F64.isNaN]

theorem F64.ieeeEq_of_not_lt {x y : F64} (hx : x.isNaN = false) (hy : y.isNaN = false)
    (h1 : F64.lt x y = false) (h2 : F64.lt y x = false) : F64.ieeeEq x y = true := by
  cases x <;> cases y <;>
    simp_all [F64.lt, F64.ieeeEq, F64.isNaN] <;> linarith

theorem F64.clamp_point {x E : F64} (hE : E.isNaN = false) :
    F64.ieeeEq (F64.min (F64.max x E) E) E = true := by
  by_cases hx : x.isNaN = true
  · simp [F64.max, F64.min, hx, hE, F64.lt_irrefl, F64.ieeeEq_refl hE]
  · simp only [Bool.not_eq_true] at hx
    by_cases h1 : F64.lt x E = true
    · simp [F64.max, F64.min, hx, hE, h1, F64.lt_irrefl, F64.ieeeEq_refl hE]
    · by_cases h2 : F64.lt E x = true
      · simp [F64.max, F64.min, hx, hE, h1, h2, F64.ieeeEq_refl hE]
      · simp only [Bool.not_eq_true] at h1 h2
        simp [F64.max, F64.min, hx, hE, h1, h2, F64.ieeeEq_of_not_lt hx hE h1 h2]

theorem F64.ceil_fin_nonneg {q : ℚ} (h : 0 ≤ q) :
    F64.ceil (F64.fin q) = F64.fin ((⌈q⌉ : ℤ) : ℚ) := by
  simp [F64.ceil, h.not_lt]

theorem F64.expand_fin_int (z : ℤ) : F64.expand (F64.fin (z : ℚ)) = F64.fin (z : ℚ) := by
  have habs : |(z : ℚ)| = ((|z| : ℤ) : ℚ) := by push_cast; ring
  have hceil : (⌈((|z| : ℤ) : ℚ)⌉ : ℤ) = |z| := Int.ceil_intCast |z|
  rcases lt_trichotomy z 0 with hz | hz | hz
  · have hzq : ((z : ℚ)) < 0 := by exact_mod_cast hz
    have hne : ((|z| : ℤ) : ℚ) ≠ 0 := by
      simp only [ne_eq, Int.cast_eq_zero, abs_eq_zero]
      omega
    simp only [F64.expand, F64.abs, habs,
      F64.ceil_fin_nonneg (by positivity : (0:ℚ) ≤ ((|z| : ℤ) : ℚ)), hceil,
      F64.copysign, F64.signBit, decide_eq_true_eq, hzq, if_true, hne, if_false]
    congr 1
    rw [abs_of_nonneg (by positivity : (0:ℚ) ≤ ((|z| : ℤ) : ℚ))]
    push_cast
    rw [abs_of_neg (by exact_mod_cast hz : ((z:ℚ)) < 0)]
    ring
  · subst hz
    simp [F64.expand, F64.abs, F64.ceil, F64.copysign, F64.signBit]
  · have hzq : ¬ ((z : ℚ)) < 0 := by
      have : (0:ℚ) ≤ (z:ℚ) := by exact_mod_cast hz.le
      linarith
    have hne : ((|z| : ℤ) : ℚ) ≠ 0 := by
      simp only [ne_eq, Int.cast_eq_zero, abs_eq_zero]
      omega
    simp only [F64.expand, F64.abs, habs,
      F64.ceil_fin_nonneg (by positivity : (0:ℚ) ≤ ((|z| : ℤ) : ℚ)), hceil,
      F64.copysign, F64.signBit, decide_eq_true_eq, hzq, if_false, hne]
    congr 1
    rw [abs_of_nonneg (by positivity : (0:ℚ) ≤ ((|z| : ℤ) : ℚ))]
    rw [abs_of_nonneg hz.le]

theorem F64.expand_fin (q : ℚ) : ∃ z : ℤ, F64.expand (F64.fin q) = F64.fin ((z : ℤ) : ℚ) := by
  by_cases hq : q < 0
  · refine ⟨-⌈|q|⌉, ?_⟩
    have h1 : ((⌈|q|⌉ : ℤ) : ℚ) ≠ 0 := by
      simp only [ne_eq, Int.cast_eq_zero]
      have : (0:ℤ) < ⌈|q|⌉ := Int.ceil_pos.mpr (abs_pos.mpr hq.ne)
      omega
    have h2 : (0:ℚ) ≤ ((⌈|q|⌉ : ℤ) : ℚ) := by
      have : (0:ℤ) ≤ ⌈|q|⌉ := Int.ceil_nonneg (abs_nonneg q)
      exact_mod_cast this
    simp only [F64.expand, F64.abs, F64.ceil_fin_nonneg (abs_nonneg q),
      F64.copysign, F64.signBit, decide_eq_true_eq, hq, if_true, h1, if_false]
    congr 1
    rw [abs_of_nonneg h2]
    push_cast
    ring
  · by_cases h0 : ((⌈|q|⌉ : ℤ) : ℚ) = 0
    · exact ⟨0, by
        simp only [F64.expand, F64.abs, F64.ceil_fin_nonneg (abs_nonneg q),
          F64.copysign, F64.signBit, decide_eq_true_eq, hq, if_false, h0, if_true]
        norm_num⟩
    · refine ⟨⌈|q|⌉, ?_⟩
      have h2 : (0:ℚ) ≤ ((⌈|q|⌉ : ℤ) : ℚ) := by
        have : (0:ℤ) ≤ ⌈|q|⌉ := Int.ceil_nonneg (abs_nonneg q)
        exact_mod_cast this
      simp only [F64.expand, F64.abs, F64.ceil_fin_nonneg (abs_nonneg q),
        F64.copysign, F64.signBit, decide_eq_true_eq, hq, if_false, h0]
      congr 1
      exact abs_of_nonneg h2

theorem F64.expand_shape (x : F64) :
    F64.expand x = F64.nan ∨ F64.expand x = F64.posInf ∨ F64.expand x = F64.negInf ∨
      F64.expand x = F64.negZero ∨ ∃ z : ℤ, F64.expand x = F64.fin ((z : ℤ) : ℚ) := by
  cases x with
  | nan => exact Or.inl rfl
  | posInf => exact Or.inr (Or.inl rfl)
  | negInf => exact Or.inr (Or.inr (Or.inl rfl))
  | negZero => exact Or.inr (Or.inr (Or.inr (Or.inl rfl)))
  | fin q =>
      obtain ⟨z, hz⟩ := F64.expand_fin q
      exact Or.inr (Or.inr (Or.inr (Or.inr ⟨z, hz⟩)))

theorem F64.expand_expand (x : F64) : F64.expand (F64.expand x) = F64.expand x := by
  rcases F64.expand_shape x with h | h | h | h | ⟨z, h⟩ <;> rw [h]
  · rfl
  · rfl
  · rfl
  · rfl
  · exact F64.expand_fin_int z

theorem F64.expand_isNaN (x : F64) : (F64.expand x).isNaN = x.isNaN := by
  cases x with
  | fin q =>
      obtain ⟨z, hz⟩ := F64.expand_fin q
      rw [hz]
      rfl
  | nan => rfl
  | posInf => rfl
  | negInf => rfl
  | negZero => rfl

theorem F64.expand_fixed_int {q : ℚ} (h : F64.expand (F64.fin q) = F64.fin q) :
    ∃ z : ℤ, q = ((z : ℤ) : ℚ) := by
  obtain ⟨z, hz⟩ := F64.expand_fin q
  rw [h] at hz
  exact ⟨z, by injection hz⟩

theorem F64.nonneg_cases {x : F64} (h : F64.le (F64.fin 0) x = true) :
    x = F64.negZero ∨ x = F64.posInf ∨ ∃ q : ℚ, 0 ≤ q ∧ x = F64.fin q := by
  cases x with
  | nan => simp [F64.le, F64.lt, F64.ieeeEq] at h
  | posInf => exact Or.inr (Or.inl rfl)
  | negInf => simp [F64.le, F64.lt, F64.ieeeEq] at h
  | negZero => exact Or.inl rfl
  | fin q =>
      refine Or.inr (Or.inr ⟨q, ?_, rfl⟩)
      simp only [F64.le, F64.lt, F64.ieeeEq, Bool.or_eq_true, decide_eq_true_eq] at h
      rcases h with h | h
      · exact h.le
      · exact h.le

theorem F64.le_fin_fin (p q : ℚ) : F64.le (F64.fin p) (F64.fin q) = decide (p ≤ q) := by
  simp only [F64.le, F64.lt, F64.ieeeEq]
  by_cases h : p ≤ q
  · rcases h.lt_or_eq with h1 | h1 <;> simp [h, h1]
  · have h1 : ¬ p < q := fun hh => h hh.le
    have h2 : ¬ p = q := fun hh => h hh.le
    simp [h, h1, h2]

theorem F64.mul_fin_fin {x y : ℚ} (hx : 0 ≤ x) (hy : 0 ≤ y) :
    F64.mul (F64.fin x) (F64.fin y) = F64.fin (x * y) := by
  by_cases h : x * y = 0
  · simp [F64.mul, F64.isNaN, F64.isInf, F64.isZero, F64.signBit, F64.mkZero, F64.val, h,
      hx.not_lt, hy.not_lt]
  · have hx0 : x ≠ 0 := fun h0 => h (by rw [h0, zero_mul])
    have hy0 : y ≠ 0 := fun h0 => h (by rw [h0, mul_zero])
    simp [F64.mul, F64.isNaN, F64.isInf, F64.isZero, F64.signBit, F64.mkZero, F64.val,
      h, hx0, hy0]

theorem F64.div_fin_pos {x y : ℚ} (hx : 0 ≤ x) (hy : 0 < y) :
    F64.div (F64.fin x) (F64.fin y) = F64.fin (x / y) := by
  by_cases h0 : x = 0
  · subst h0
    simp [F64.div, F64.isNaN, F64.isInf, F64.isZero, F64.signBit, F64.mkZero, F64.val,
      hy.ne', hy.not_lt]
  · have h : x / y ≠ 0 := div_ne_zero h0 hy.ne'
    simp [F64.div, F64.isNaN, F64.isInf, F64.isZero, F64.signBit, F64.mkZero, F64.val,
      h, h0, hy.ne', hx.not_lt, hy.not_lt]

theorem F64.div_fin_posInf {x : ℚ} (hx : 0 ≤ x) :
    F64.div (F64.fin x) F64.posInf = F64.fin 0 := by
  simp [F64.div, F64.isNaN, F64.isInf, F64.isZero, F64.signBit, F64.mkZero, hx.not_lt]

theorem F64.div_posInf_fin {y : ℚ} (hy : 0 ≤ y) :
    F64.div F64.posInf (F64.fin y) = F64.posInf := by
  simp [F64.div, F64.isNaN, F64.isInf, F64.isZero, F64.signBit, F64.mkInf, hy.not_lt]

theorem F64.div_fin_zero {x : ℚ} (hx : 0 ≤ x) (hx0 : x ≠ 0) :
    F64.div (F64.fin x) (F64.fin 0) = F64.posInf := by
  simp [F64.div, F64.isNaN, F64.isInf, F64.isZero, F64.signBit, F64.mkInf, hx0, hx.not_lt]

theorem F64.div_zero_zero : F64.div (F64.fin 0) (F64.fin 0) = F64.nan := by
  simp [F64.div, F64.isNaN, F64.isInf, F64.isZero]

theorem F64.recip_pos {y : ℚ} (hy : 0 < y) : F64.recip (F64.fin y) = F64.fin (1 / y) :=
  F64.div_fin_pos zero_le_one hy

theorem F64.max_fin0_notNaN (x : F64) : (F64.max x (F64.fin 0)).isNaN = false := by
  cases x with
  | fin q =>
      by_cases h : F64.lt (F64.fin q) (F64.fin 0) = true <;>
        simp [F64.max, F64.isNaN, h]
  | nan => rfl
  | posInf => rfl
  | negInf => rfl
  | negZero => rfl

theorem F64.le_trans_zero {w W : F64} (hw : F64.lt w (F64.fin 0) = true)
    (hW : F64.le (F64.fin 0) W = true) : F64.le w W = true := by
  cases w <;> cases W <;> simp_all [F64.lt, F64.le, F64.ieeeEq] <;>
    exact Or.inl (by rcases hW with h | h <;> linarith)

/-- Claim C9: for every BiAxial b, axis a and value v, writing v on axis a and
reading it back on a yields v, while reading the cross axis is unchanged. -/
theorem claim_C9 {T : Type} (b : BiAxial T) (a : Axis) (v : T) :
    (b.set_for_axis a v).value_for_axis a = v ∧
      (b.set_for_axis a v).value_for_axis a.cross = b.value_for_axis a.cross := by
  cases a <;> simp [BiAxial.set_for_axis, BiAxial.value_for_axis, Axis.cross]

/-- Claim C7: the three unbounded ContentFill variants are fixed points of
shrink, and shrinking Constrain(limit) by amount yields
Constrain(max(limit - amount, 0)), all up to Rust equality. -/
theorem claim_C7 (amount : F64) :
    ContentFill.eq (ContentFill.Min.shrink amount) ContentFill.Min = true ∧
    ContentFill.eq (ContentFill.Max.shrink amount) ContentFill.Max = true ∧
    ContentFill.eq (ContentFill.MaxStretch.shrink amount) ContentFill.MaxStretch = true ∧
    ∀ limit : F64, ContentFill.eq ((ContentFill.Constrain limit).shrink amount)
        (ContentFill.Constrain (F64.max (F64.sub limit amount) (F64.fin 0))) = true := by
  refine ⟨rfl, rfl, rfl, fun limit => ?_⟩
  simp only [ContentFill.shrink, ContentFill.eq]
  exact F64.ieeeEq_refl (F64.max_fin0_notNaN _)

/-- Claim C3, corrected: equality on Constrain payloads is IEEE float equality
(not bit-pattern equality), while hashing emits tag 4 followed by the payload
bit pattern for Constrain and the fixed distinct tags 1, 2, 3 for Max, Min and
MaxStretch. -/
theorem claim_C3 :
    (∀ x y : F64, ContentFill.eq (ContentFill.Constrain x) (ContentFill.Constrain y) =
        F64.ieeeEq x y) ∧
    (∀ x : F64, ContentFill.hashToks (ContentFill.Constrain x) =
        [HashTok.u8 4, HashTok.u64 x]) ∧
    ContentFill.hashToks ContentFill.Min = [HashTok.u8 2] ∧
    ContentFill.hashToks ContentFill.Max = [HashTok.u8 1] ∧
    ContentFill.hashToks ContentFill.MaxStretch = [HashTok.u8 3] :=
  ⟨fun _ _ => rfl, fun _ => rfl, rfl, rfl, rfl⟩

/-- Claim C3 as stated is false: Constrain(0.0) and Constrain(-0.0) compare
equal under the derived PartialEq although the payload bit patterns differ. -/
theorem claim_C3_cex :
    ContentFill.eq (ContentFill.Constrain (F64.fin 0)) (ContentFill.Constrain F64.negZero)
        = true ∧
      F64.sameBits (F64.fin 0) F64.negZero = false := by
  constructor
  · decide
  · decide

/-- Claim C5: the full case analysis of BiAxial(ContentFill)
constrain_aspect_ratio — both axes constrained branches on
constraint_ratio = h / v versus aspect_ratio, a single constrained axis
answers a query on that axis with its own limit, and every other case gives
no bound. -/
theorem claim_C5 :
    (∀ h v ar : F64,
      (F64.lt ar (F64.div h v) = true →
        BiAxial.constrainAR ⟨ContentFill.Constrain h, ContentFill.Constrain v⟩ ar Axis.Vertical
            = some h ∧
          BiAxial.constrainAR ⟨ContentFill.Constrain h, ContentFill.Constrain v⟩ ar
              Axis.Horizontal = some (F64.mul ar.recip h)) ∧
      (F64.lt ar (F64.div h v) = false →
        BiAxial.constrainAR ⟨ContentFill.Constrain h, ContentFill.Constrain v⟩ ar
            Axis.Horizontal = some h ∧
          BiAxial.constrainAR ⟨ContentFill.Constrain h, ContentFill.Constrain v⟩ ar Axis.Vertical
            = some (F64.mul ar v))) ∧
    (∀ (h : F64) (vf : ContentFill) (ar : F64), vf.isConstrain = false →
      BiAxial.constrainAR ⟨ContentFill.Constrain h, vf⟩ ar Axis.Horizontal = some h) ∧
    (∀ (hf : ContentFill) (v ar : F64), hf.isConstrain = false →
      BiAxial.constrainAR ⟨hf, ContentFill.Constrain v⟩ ar Axis.Vertical = some v) ∧
    (∀ (hf vf : ContentFill) (ar : F64) (axis : Axis),
      (hf.isConstrain = false ∧ vf.isConstrain = false) ∨
        (vf.isConstrain = false ∧ axis = Axis.Vertical) ∨
        (hf.isConstrain = false ∧ axis = Axis.Horizontal) →
      BiAxial.constrainAR ⟨hf, vf⟩ ar axis = none) := by
  refine ⟨fun h v ar => ⟨fun hc => ?_, fun hc => ?_⟩, fun h vf ar hv => ?_,
    fun hf v ar hh => ?_, fun hf vf ar axis hcase => ?_⟩
  · constructor <;> simp [BiAxial.constrainAR, hc]
  · constructor <;> simp [BiAxial.constrainAR, hc]
  · cases vf <;> simp_all [BiAxial.constrainAR, ContentFill.isConstrain]
  · cases hf <;> simp_all [BiAxial.constrainAR, ContentFill.isConstrain]
  · cases hf <;> cases vf <;> cases axis <;>
      simp_all [BiAxial.constrainAR, ContentFill.isConstrain]

theorem claim_C5_wit :
    BiAxial.constrainAR
        ⟨ContentFill.Constrain (F64.fin 2), ContentFill.Constrain (F64.fin 1)⟩
        (F64.fin 1) Axis.Vertical = some (F64.fin 2) :=
  ((claim_C5.1 (F64.fin 2) (F64.fin 1) (F64.fin 1)).1 (by
    norm_num [F64.div, F64.lt, F64.isNaN, F64.isInf, F64.isZero, F64.val, F64.mkInf,
      F64.mkZero, F64.signBit])).1

/-- Claim C10: with a non-negative exact target, a negative width whose ideal
height does not exceed the height bound short-circuits through contains (which
only checks upper bounds) before sign normalization, so constrain_aspect_ratio
returns the un-normalized ideal size with its negative width. -/
theorem claim_C10 (W H ar w : F64) (hW : F64.le (F64.fin 0) W = true)
    (hH : F64.le (F64.fin 0) H = true) (hw : F64.lt w (F64.fin 0) = true)
    (hwa : F64.le (F64.mul w ar) H = true) :
    (BoxConstraints.mk ⟨W, H⟩).constrainAR ar w = ⟨w, F64.mul w ar⟩ ∧
      F64.lt ((BoxConstraints.mk ⟨W, H⟩).constrainAR ar w).width (F64.fin 0) = true := by
  have hcw : F64.le w W = true := F64.le_trans_zero hw hW
  have hcontains : (BoxConstraints.mk ⟨W, H⟩).contains ⟨w, F64.mul w ar⟩ = true := by
    simp [BoxConstraints.contains, hcw, hwa]
  have hres : (BoxConstraints.mk ⟨W, H⟩).constrainAR ar w = ⟨w, F64.mul w ar⟩ := by
    simp [BoxConstraints.constrainAR, hcontains]
  exact ⟨hres, by rw [hres]; exact hw⟩

theorem claim_C10_wit :
    (BoxConstraints.mk ⟨F64.fin 5, F64.fin 5⟩).constrainAR (F64.fin 1) (F64.fin (-1))
        = ⟨F64.fin (-1), F64.mul (F64.fin (-1)) (F64.fin 1)⟩ ∧
      F64.lt ((BoxConstraints.mk ⟨F64.fin 5, F64.fin 5⟩).constrainAR (F64.fin 1)
        (F64.fin (-1))).width (F64.fin 0) = true :=
  claim_C10 (F64.fin 5) (F64.fin 5) (F64.fin 1) (F64.fin (-1))
    (by decide) (by decide) (by decide)
    (by norm_num [F64.mul, F64.le, F64.lt, F64.ieeeEq, F64.isNaN, F64.isInf, F64.isZero,
      F64.val, F64.mkInf, F64.mkZero, F64.signBit])

theorem F64.expand_fin_nonneg {q : ℚ} (h : 0 ≤ q) :
    F64.expand (F64.fin q) = F64.fin ((⌈q⌉ : ℤ) : ℚ) := by
  have habs : |q| = q := abs_of_nonneg h
  by_cases h0 : ((⌈q⌉ : ℤ) : ℚ) = 0
  · simp only [F64.expand, F64.abs, habs, F64.ceil_fin_nonneg h, F64.copysign, F64.signBit,
      decide_eq_true_eq, h.not_lt, if_false, h0, if_true]
  · have h2 : (0:ℚ) ≤ ((⌈q⌉ : ℤ) : ℚ) := by exact_mod_cast Int.ceil_nonneg h
    simp only [F64.expand, F64.abs, habs, F64.ceil_fin_nonneg h, F64.copysign, F64.signBit,
      decide_eq_true_eq, h.not_lt, if_false, h0]
    congr 1
    exact abs_of_nonneg h2

theorem F64.expand_negZero : F64.expand F64.negZero = F64.negZero := by
  norm_num [F64.expand, F64.abs, F64.ceil, F64.copysign, F64.signBit]

/-- Claim C1, amended: for a constructor-built constraint with non-NaN exact
components, constrain always returns the constraint's own target size
(under Rust Size equality), whatever the candidate. -/
theorem claim_C1 (e s : Size) (hw : e.width.isNaN = false) (hh : e.height.isNaN = false) :
    Size.ieeeEq ((BoxConstraints.new e).constrain s) ((BoxConstraints.new e).size) = true := by
  have h1 : (e.width.expand).isNaN = false := by rw [F64.expand_isNaN]; exact hw
  have h2 : (e.height.expand).isNaN = false := by rw [F64.expand_isNaN]; exact hh
  simp only [BoxConstraints.new, BoxConstraints.constrain, BoxConstraints.size, Size.clamp,
    Size.expand, Size.ieeeEq]
  rw [F64.clamp_point h1, F64.clamp_point h2]
  rfl

theorem claim_C1_wit :
    Size.ieeeEq ((BoxConstraints.new ⟨F64.fin 3, F64.fin 4⟩).constrain ⟨F64.fin 1, F64.fin 2⟩)
      ((BoxConstraints.new ⟨F64.fin 3, F64.fin 4⟩).size) = true :=
  claim_C1 ⟨F64.fin 3, F64.fin 4⟩ ⟨F64.fin 1, F64.fin 2⟩ rfl rfl

/-- Claim C1 as stated is false: a constructor-built constraint with a NaN
width gives constrain(s) = s-ish values that are not Rust-equal to size(),
because NaN is dropped by clamp and NaN != NaN. -/
theorem claim_C1_cex :
    Size.ieeeEq ((BoxConstraints.new ⟨F64.nan, F64.fin 0⟩).constrain ⟨F64.fin 0, F64.fin 0⟩)
      ((BoxConstraints.new ⟨F64.nan, F64.fin 0⟩).size) = false := by
  norm_num [BoxConstraints.new, BoxConstraints.constrain, BoxConstraints.size, Size.clamp,
    Size.expand, Size.ieeeEq, F64.expand, F64.abs, F64.ceil, F64.copysign, F64.signBit,
    F64.max, F64.min, F64.lt, F64.ieeeEq, F64.isNaN]

/-- Claim C4, amended: the produced constraints carry expand(major_value) on
the major axis (not major_value itself, which the constructor rounds), and
carry the cross-axis component of existing.size() over unchanged. -/
theorem claim_C4 (a : Axis) (e : Size) (m : F64) :
    Axis.major a ((Axis.constraints a (BoxConstraints.new e) m).size) = F64.expand m ∧
      Axis.minor a ((Axis.constraints a (BoxConstraints.new e) m).size)
        = Axis.minor a ((BoxConstraints.new e).size) := by
  cases a <;>
    simp [Axis.constraints, Axis.major, Axis.minor, Axis.cross, BoxConstraints.new,
      BoxConstraints.size, Size.expand, F64.expand_expand]

/-- Claim C4 as stated is false: a fractional major value is rounded by the
constructor, so the major-axis target is not Rust-equal to major_value. -/
theorem claim_C4_cex :
    F64.ieeeEq
      (Axis.major Axis.Horizontal
        ((Axis.constraints Axis.Horizontal (BoxConstraints.new ⟨F64.fin 1, F64.fin 1⟩)
          (F64.fin (1/2))).size))
      (F64.fin (1/2)) = false := by
  have hc : (⌈(1/2 : ℚ)⌉ : ℤ) = 1 := by
    rw [Int.ceil_eq_iff] <;> norm_num
  norm_num [Axis.constraints, Axis.major, BoxConstraints.new, BoxConstraints.size,
    Size.expand, F64.expand_fin_nonneg (by norm_num : (0:ℚ) ≤ 1/2), hc, F64.ieeeEq]

theorem F64.expand_fixes_shape {r : F64}
    (h : r = F64.posInf ∨ r = F64.negZero ∨ ∃ z : ℤ, r = F64.fin ((z : ℤ) : ℚ)) :
    F64.ieeeEq (F64.expand r) r = true := by
  rcases h with rfl | rfl | ⟨z, rfl⟩
  · rfl
  · rw [F64.expand_negZero]
    rfl
  · rw [F64.expand_fin_int]
    exact F64.ieeeEq_refl rfl

theorem F64.shrink_comp {Wc dw : F64}
    (hW : Wc = F64.nan ∨ Wc = F64.posInf ∨ Wc = F64.negInf ∨ Wc = F64.negZero ∨
      ∃ z : ℤ, Wc = F64.fin ((z : ℤ) : ℚ))
    (hd : F64.le (F64.fin 0) dw = true) :
    F64.ieeeEq (F64.expand (F64.max (F64.sub Wc dw.expand) (F64.fin 0)))
      (F64.max (F64.sub Wc dw.expand) (F64.fin 0)) = true := by
  apply F64.expand_fixes_shape
  have he : dw.expand = F64.negZero ∨ dw.expand = F64.posInf ∨
      ∃ n : ℤ, 0 ≤ n ∧ dw.expand = F64.fin ((n : ℤ) : ℚ) := by
    rcases F64.nonneg_cases hd with rfl | rfl | ⟨q, hq, rfl⟩
    · exact Or.inl F64.expand_negZero
    · exact Or.inr (Or.inl rfl)
    · exact Or.inr (Or.inr ⟨⌈q⌉, Int.ceil_nonneg hq, F64.expand_fin_nonneg hq⟩)
  rcases hW with rfl | rfl | rfl | rfl | ⟨z, rfl⟩ <;>
    rcases he with he | he | ⟨n, hn, he⟩ <;> rw [he]
  · exact Or.inr (Or.inr ⟨0, by norm_num [F64.sub, F64.max, F64.isNaN]⟩)
  · exact Or.inr (Or.inr ⟨0, by norm_num [F64.sub, F64.max, F64.isNaN]⟩)
  · exact Or.inr (Or.inr ⟨0, by norm_num [F64.sub, F64.max, F64.isNaN]⟩)
  · exact Or.inl (by norm_num [F64.sub, F64.max, F64.isNaN, F64.lt])
  · exact Or.inr (Or.inr ⟨0, by norm_num [F64.sub, F64.max, F64.isNaN, F64.lt]⟩)
  · exact Or.inl (by norm_num [F64.sub, F64.max, F64.isNaN, F64.lt])
  · exact Or.inr (Or.inr ⟨0, by norm_num [F64.sub, F64.max, F64.isNaN, F64.lt]⟩)
  · exact Or.inr (Or.inr ⟨0, by norm_num [F64.sub, F64.max, F64.isNaN, F64.lt]⟩)
  · exact Or.inr (Or.inr ⟨0, by norm_num [F64.sub, F64.max, F64.isNaN, F64.lt]⟩)
  · -- negZero minus negZero
    exact Or.inr (Or.inr ⟨0, by norm_num [F64.sub, F64.max, F64.isNaN, F64.lt, F64.val]⟩)
  · exact Or.inr (Or.inr ⟨0, by norm_num [F64.sub, F64.max, F64.isNaN, F64.lt, F64.val]⟩)
  · -- negZero minus a non-negative integer: -0 - 0 = -0, otherwise a negative value
    by_cases hn0 : ((n : ℤ) : ℚ) = 0
    · refine Or.inr (Or.inl ?_)
      norm_num [F64.sub, F64.max, F64.isNaN, F64.lt, F64.val, hn0]
    · have hn' : 0 < n := by
        rcases hn.lt_or_eq with h | h
        · exact h
        · exact absurd (by rw [← h]; norm_num : ((n : ℤ) : ℚ) = 0) hn0
      have hlt : (0:ℚ) - ((n : ℤ) : ℚ) < 0 := by
        have : (0:ℚ) < ((n : ℤ) : ℚ) := by exact_mod_cast hn'
        linarith
      refine Or.inr (Or.inr ⟨0, ?_⟩)
      norm_num [F64.sub, F64.max, F64.isNaN, F64.lt, F64.val, hn0, hlt, hlt.ne, hn']
  · -- finite integer minus negZero
    by_cases hz0 : ((z : ℤ) : ℚ) = 0
    · exact Or.inr (Or.inr ⟨0, by norm_num [F64.sub, F64.max, F64.isNaN, F64.lt, F64.val, hz0]⟩)
    · by_cases hzneg : ((z : ℤ) : ℚ) < 0
      · exact Or.inr (Or.inr ⟨0, by
          norm_num [F64.sub, F64.max, F64.isNaN, F64.lt, F64.val, hz0, hzneg]⟩)
      · exact Or.inr (Or.inr ⟨z, by
          norm_num [F64.sub, F64.max, F64.isNaN, F64.lt, F64.val, hz0, hzneg]⟩)
  · exact Or.inr (Or.inr ⟨0, by norm_num [F64.sub, F64.max, F64.isNaN, F64.lt, F64.val]⟩)
  · -- finite integer minus finite non-negative integer
    by_cases hd0 : ((z : ℤ) : ℚ) - ((n : ℤ) : ℚ) = 0
    · exact Or.inr (Or.inr ⟨0, by
        norm_num [F64.sub, F64.max, F64.isNaN, F64.lt, F64.val, hd0]⟩)
    · by_cases hdneg : ((z : ℤ) : ℚ) - ((n : ℤ) : ℚ) < 0
      · exact Or.inr (Or.inr ⟨0, by
          norm_num [F64.sub, F64.max, F64.isNaN, F64.lt, F64.val, hd0, hdneg]⟩)
      · refine Or.inr (Or.inr ⟨z - n, by
          norm_num [F64.sub, F64.max, F64.isNaN, F64.lt, F64.val, hd0, hdneg]⟩)

/-- Claim C6: for constructor-built constraints and non-negative deltas, each
component of shrink's resulting target equals max(size() - expand(delta), 0)
componentwise, under Rust f64 equality. -/
theorem claim_C6 (c : BoxConstraints) (d : Size) (hc : ∃ s : Size, c = BoxConstraints.new s)
    (hdw : F64.le (F64.fin 0) d.width = true) (hdh : F64.le (F64.fin 0) d.height = true) :
    F64.ieeeEq ((c.shrink d).size.width)
        (F64.max (F64.sub c.size.width d.expand.width) (F64.fin 0)) = true ∧
      F64.ieeeEq ((c.shrink d).size.height)
        (F64.max (F64.sub c.size.height d.expand.height) (F64.fin 0)) = true := by
  obtain ⟨s, rfl⟩ := hc
  have hw : (BoxConstraints.new s).size.width = s.width.expand := rfl
  have hh : (BoxConstraints.new s).size.height = s.height.expand := rfl
  constructor
  · simp only [BoxConstraints.shrink, BoxConstraints.new, BoxConstraints.size, Size.expand]
    exact F64.shrink_comp (F64.expand_shape s.width) hdw
  · simp only [BoxConstraints.shrink, BoxConstraints.new, BoxConstraints.size, Size.expand]
    exact F64.shrink_comp (F64.expand_shape s.height) hdh

theorem claim_C6_wit :
    F64.ieeeEq (((BoxConstraints.new ⟨F64.fin 10, F64.fin 7⟩).shrink
          ⟨F64.fin 3, F64.fin 9⟩).size.width)
        (F64.max (F64.sub (BoxConstraints.new ⟨F64.fin 10, F64.fin 7⟩).size.width
          (Size.expand ⟨F64.fin 3, F64.fin 9⟩).width) (F64.fin 0)) = true ∧
      F64.ieeeEq (((BoxConstraints.new ⟨F64.fin 10, F64.fin 7⟩).shrink
          ⟨F64.fin 3, F64.fin 9⟩).size.height)
        (F64.max (F64.sub (BoxConstraints.new ⟨F64.fin 10, F64.fin 7⟩).size.height
          (Size.expand ⟨F64.fin 3, F64.fin 9⟩).height) (F64.fin 0)) = true :=
  claim_C6 (BoxConstraints.new ⟨F64.fin 10, F64.fin 7⟩) ⟨F64.fin 3, F64.fin 9⟩
    ⟨⟨F64.fin 10, F64.fin 7⟩, rfl⟩ (by decide) (by decide)

theorem Size.expand_idem (s : Size) : Size.expand (Size.expand s) = Size.expand s := by
  simp [Size.expand, F64.expand_expand]

theorem Size.ieeeEq_self {s : Size} (h : s.noNaN) : Size.ieeeEq s s = true := by
  simp [Size.ieeeEq, F64.ieeeEq_refl h.1, F64.ieeeEq_refl h.2]

theorem Size.expand_noNaN {s : Size} (h : s.noNaN) : (Size.expand s).noNaN :=
  ⟨(F64.expand_isNaN s.width).trans h.1, (F64.expand_isNaN s.height).trans h.2⟩

theorem BoxConstraints.diag_false {c : BoxConstraints}
    (h1 : Size.expand c.exact = c.exact) (h2 : c.exact.noNaN) :
    c.notExpandedDiag = false := by
  simp [BoxConstraints.notExpandedDiag, h1, Size.ieeeEq_self h2]

/-- Claim C8, amended: new, shrink and Axis::constraints always produce an
exact target fixed by expand as float data; whenever no NaN component is
involved (unconditionally for shrink's output) the exact target also equals
its expansion under IEEE equality and debug_check's non-expanded diagnostic
cannot fire.  With a NaN component the diagnostic does fire, since
NaN != NaN. -/
theorem claim_C8 :
    (∀ s : Size, Size.expand (BoxConstraints.new s).exact = (BoxConstraints.new s).exact) ∧
    (∀ s : Size, s.noNaN → (BoxConstraints.new s).notExpandedDiag = false) ∧
    (∀ (c : BoxConstraints) (d : Size),
      Size.expand (c.shrink d).exact = (c.shrink d).exact ∧
        (c.shrink d).notExpandedDiag = false) ∧
    (∀ (a : Axis) (c : BoxConstraints) (m : F64),
      Size.expand (Axis.constraints a c m).exact = (Axis.constraints a c m).exact ∧
        (m.isNaN = false → c.exact.noNaN →
          (Axis.constraints a c m).notExpandedDiag = false)) := by
  refine ⟨fun s => Size.expand_idem s, fun s hs => ?_, fun c d => ⟨?_, ?_⟩,
    fun a c m => ⟨?_, fun hm hc => ?_⟩⟩
  · exact BoxConstraints.diag_false (Size.expand_idem s) (Size.expand_noNaN hs)
  · exact Size.expand_idem _
  · exact BoxConstraints.diag_false (Size.expand_idem _)
      (Size.expand_noNaN ⟨F64.max_fin0_notNaN _, F64.max_fin0_notNaN _⟩)
  · cases a <;> exact Size.expand_idem _
  · cases a
    · exact BoxConstraints.diag_false (Size.expand_idem _) (Size.expand_noNaN ⟨hm, hc.2⟩)
    · exact BoxConstraints.diag_false (Size.expand_idem _) (Size.expand_noNaN ⟨hc.1, hm⟩)

theorem claim_C8_wit :
    (BoxConstraints.new ⟨F64.fin 3, F64.fin (5/2)⟩).notExpandedDiag = false :=
  claim_C8.2.1 ⟨F64.fin 3, F64.fin (5/2)⟩ ⟨rfl, rfl⟩

/-- Claim C8 as stated is false: a constructor-built constraint with a NaN
component makes the non-expanded diagnostic fire, because the debug_check
comparison uses IEEE equality and NaN != NaN. -/
theorem claim_C8_cex :
    (BoxConstraints.new ⟨F64.nan, F64.fin 0⟩).notExpandedDiag = true := by
  norm_num [BoxConstraints.new, BoxConstraints.notExpandedDiag, Size.expand, Size.ieeeEq,
    F64.expand, F64.abs, F64.ceil, F64.copysign, F64.signBit, F64.ieeeEq, F64.isNaN]

theorem F64.finNonneg_notNaN {x : F64} (hx : x.finiteNonneg) : x.isNaN = false := by
  rcases hx with rfl | ⟨q, _, rfl⟩ <;> rfl

theorem F64.abs_finNonneg {x : F64} (hx : x.finiteNonneg) :
    ∃ q : ℚ, 0 ≤ q ∧ x.abs = F64.fin q := by
  rcases hx with rfl | ⟨q, hq, rfl⟩
  · exact ⟨0, le_rfl, rfl⟩
  · exact ⟨q, hq, by simp [F64.abs, abs_of_nonneg hq]⟩

theorem F64.mul_negZero_negZero : F64.mul F64.negZero F64.negZero = F64.fin 0 := by
  norm_num [F64.mul, F64.isNaN, F64.isInf, F64.isZero, F64.signBit, F64.mkZero, F64.val]

theorem F64.mul_negZero_fin {q : ℚ} (hq : 0 ≤ q) :
    F64.mul F64.negZero (F64.fin q) = F64.negZero := by
  norm_num [F64.mul, F64.isNaN, F64.isInf, F64.isZero, F64.signBit, F64.mkZero, F64.val,
    hq.not_lt]

theorem F64.mul_fin_negZero {p : ℚ} (hp : 0 ≤ p) :
    F64.mul (F64.fin p) F64.negZero = F64.negZero := by
  norm_num [F64.mul, F64.isNaN, F64.isInf, F64.isZero, F64.signBit, F64.mkZero, F64.val,
    hp.not_lt]

theorem F64.mul_finNonneg {a b : F64} (ha : a.finiteNonneg) (hb : b.finiteNonneg) :
    (F64.mul a b).finiteNonneg := by
  rcases ha with rfl | ⟨p, hp, rfl⟩ <;> rcases hb with rfl | ⟨q, hq, rfl⟩
  · exact Or.inr ⟨0, le_rfl, F64.mul_negZero_negZero⟩
  · exact Or.inl (F64.mul_negZero_fin hq)
  · exact Or.inl (F64.mul_fin_negZero hp)
  · rw [F64.mul_fin_fin hp hq]
    exact Or.inr ⟨p * q, mul_nonneg hp hq, rfl⟩

theorem F64.abs_zero_cases {x : F64} (hx : x.finiteNonneg) (h : x.abs = F64.fin 0) :
    x = F64.negZero ∨ x = F64.fin 0 := by
  rcases hx with rfl | ⟨q, hq, rfl⟩
  · exact Or.inl rfl
  · refine Or.inr ?_
    simp only [F64.abs, F64.fin.injEq] at h
    rw [abs_eq_zero] at h
    rw [h]

theorem F64.le_zeroish_bound {x H : F64} (hx : x = F64.negZero ∨ x = F64.fin 0)
    (hH : H.boundValid) : F64.le x H = true := by
  rcases hH with rfl | ⟨k, hk, rfl, _⟩
  · rcases hx with rfl | rfl
    · rfl
    · rfl
  · rcases hx with rfl | rfl
    · simp only [F64.le, F64.lt, F64.ieeeEq, Bool.or_eq_true, decide_eq_true_eq]
      rcases hk.lt_or_eq with h | h
      · exact Or.inl h
      · exact Or.inr h.symm
    · simp only [F64.le, F64.lt, F64.ieeeEq, Bool.or_eq_true, decide_eq_true_eq]
      rcases hk.lt_or_eq with h | h
      · exact Or.inl h
      · exact Or.inr h

theorem F64.mul_zeroish {w ar : F64} (hw : w.finiteNonneg)
    (har : ar = F64.negZero ∨ ar = F64.fin 0) :
    F64.mul w ar = F64.negZero ∨ F64.mul w ar = F64.fin 0 := by
  rcases hw with rfl | ⟨p, hp, rfl⟩ <;> rcases har with rfl | rfl
  · exact Or.inr F64.mul_negZero_negZero
  · exact Or.inl (F64.mul_negZero_fin le_rfl)
  · exact Or.inl (F64.mul_fin_negZero hp)
  · rw [F64.mul_fin_fin hp le_rfl, mul_zero]
    exact Or.inr rfl

/-- Claim C2 is a property the code violates.  At exact = (+inf, 5) — an
allowed infinite bound — with aspect_ratio = 0.0 and width = +inf (both
non-negative), the ideal height is inf * 0 = NaN, the final branch returns
(inf, inf * 0) = (inf, NaN), and contains rejects it because NaN <= 5 is
false.  The second conjunct evaluates the code at a finite input taken from
the repository's own unit-test table, where every intermediate value is
exactly representable in binary64 so the model's trace coincides with the
program's: for exact = (60, 100), aspect_ratio = 2.0, width = 30.0 the
contains short-circuit returns the ideal size (30, 60), while the test in
box_constraints.rs expects (45, 90) — the function contradicts its own
test. -/
theorem claim_C2 :
    ((BoxConstraints.mk ⟨F64.posInf, F64.fin 5⟩).constrainAR (F64.fin 0) F64.posInf
        = ⟨F64.posInf, F64.nan⟩ ∧
      (BoxConstraints.mk ⟨F64.posInf, F64.fin 5⟩).contains
        ((BoxConstraints.mk ⟨F64.posInf, F64.fin 5⟩).constrainAR (F64.fin 0) F64.posInf)
        = false) ∧
    ((BoxConstraints.new ⟨F64.fin 60, F64.fin 100⟩).constrainAR (F64.fin 2) (F64.fin 30)
        = ⟨F64.fin 30, F64.fin 60⟩ ∧
      Size.ieeeEq
        ((BoxConstraints.new ⟨F64.fin 60, F64.fin 100⟩).constrainAR (F64.fin 2) (F64.fin 30))
        ⟨F64.fin 45, F64.fin 90⟩ = false) := by
  refine ⟨⟨?_, ?_⟩, ?_, ?_⟩ <;>
    norm_num [BoxConstraints.new, BoxConstraints.constrainAR, BoxConstraints.contains,
      Size.expand, Size.ieeeEq, F64.expand, F64.abs, F64.ceil, F64.copysign, F64.mul,
      F64.div, F64.recip, F64.le, F64.lt, F64.ieeeEq, F64.isNaN, F64.isInf, F64.isZero,
      F64.val, F64.signBit, F64.mkZero, F64.mkInf]
